import Mathlib

/-!
# Verification of the index-and-reindex subsystem of `claude_skills_mcp_backend`

Shallow embedding of `packages/backend/src/claude_skills_mcp_backend/http_server.py`
(the index/reindex coordinator, loading state, scheduler callback and the
path-containment check of skill deletion), together with proofs and refutations
of the specified properties.

Python state mutation is modelled by explicit state passing; a Python function
that may raise returns `Except String` (the exception payload as a string);
an exception escaping after some fields were already assigned is modelled by
returning the partially-updated state alongside the error, exactly as the
mutations happened in the source. The embedding-scoring collaborator
(`model.encode`) is kept abstract as a fallible function producing one vector
per input description.
-/

set_option autoImplicit false

namespace SkillsBackend

/-- A skill record, restricted to the fields the index/reindex subsystem reads:
composite identity `(name, tenant_id, agent_id)` plus the `description` used
for scoring (`skill_loader.Skill`). -/
structure Skill where
  name : String
  tenant_id : Option String
  agent_id : Option String
  description : String
deriving DecidableEq, Repr

/-- The composite identity key `(name, tenant_id, agent_id)`
(http_server.py line 300). -/
abbrev SkillKey := String × Option String × Option String

/-- The expression `key = (skill.name, skill.tenant_id, skill.agent_id)`
(http_server.py lines 302, 306). -/
def skillKey (s : Skill) : SkillKey := (s.name, s.tenant_id, s.agent_id)

/-- The queryable state of `SkillSearchEngine`: `self.skills` plus
`self.embeddings` (`None` or a matrix with one row per skill; rows are kept
abstract in the type parameter `V`). -/
structure EngineState (V : Type) where
  skills : List Skill
  embeddings : Option (List V)
deriving DecidableEq, Repr

/-- The `LoadingState` record (http_server.py lines 72-94): progress record with
`total_skills`, `loaded_skills`, `is_complete` and the ordered error list. -/
structure LoadingState where
  total_skills : Nat
  loaded_skills : Nat
  is_complete : Bool
  errors : List String
deriving DecidableEq, Repr

/-- Method `LoadingState.add_error` (http_server.py lines 88-90). -/
def add_error (ls : LoadingState) (e : String) : LoadingState :=
  { ls with errors := ls.errors ++ [e] }

/-! ## The Python dict `skills_by_key`

`_rebuild_index` builds `skills_by_key: dict[tuple, Skill]` by assignment
`skills_by_key[key] = skill`. A Python dict keeps insertion order of keys and
an assignment to an existing key replaces its value in place. We model the
dict as an association list; assignment replaces the first (and, starting from
the empty dict, only) entry holding the key, else appends. -/

/-- Assignment `d[k] = v` on a Python dict modelled as an association list. -/
def dictInsert : List (SkillKey × Skill) → SkillKey → Skill → List (SkillKey × Skill)
  | [], k, v => [(k, v)]
  | p :: rest, k, v =>
    if p.1 = k then (k, v) :: rest else p :: dictInsert rest k v

/-- Lookup `d[k]` on the association-list dict. -/
def dictFind : List (SkillKey × Skill) → SkillKey → Option Skill
  | [], _ => none
  | p :: rest, k => if p.1 = k then some p.2 else dictFind rest k

/-- Fold a list of skills into the dict:
`for skill in l: d[(skill.name, skill.tenant_id, skill.agent_id)] = skill`. -/
def dictOfSkills (init : List (SkillKey × Skill)) (l : List Skill) :
    List (SkillKey × Skill) :=
  l.foldl (fun d s => dictInsert d (skillKey s) s) init

/-- The line `combined_skills = list(skills_by_key.values())` where `skills_by_key` is
built from the existing snapshot first, then the incoming skills
(http_server.py lines 300-309). -/
def combinedSkills (existing new_skills : List Skill) : List Skill :=
  (dictOfSkills (dictOfSkills [] existing) new_skills).map (fun p => p.2)

/-! ## `_rebuild_index` (http_server.py lines 295-327)

Runs under `search_engine._lock`. Reads the existing skills, overlays the
incoming ones by composite key, and installs the new snapshot. Crucially the
source assigns `search_engine.skills = combined_skills` (line 319) *before*
computing `search_engine.embeddings = model.encode(...)` (line 324): if the
scoring call raises, the exception escapes with the skills list already
replaced and the embeddings untouched. -/

/-- Function `_rebuild_index` as a state transformer. `encode` is the scoring
collaborator `model.encode`; `.error` models the exception escaping the
function after the assignments that already happened. -/
def rebuildIndex {V : Type} (encode : List String → Except String (List V))
    (st : EngineState V) (new_skills : List Skill) :
    EngineState V × Except String Nat :=
  let combined := combinedSkills st.skills new_skills
  if combined.isEmpty then
    ({ skills := [], embeddings := none }, Except.ok 0)
  else
    let st1 : EngineState V := { st with skills := combined }
    match encode (combined.map (fun s => s.description)) with
    | Except.error e => (st1, Except.error e)
    | Except.ok m => ({ st1 with embeddings := some m }, Except.ok combined.length)

/-! ## `_rebuild_index_without_skill` (http_server.py lines 1964-1993)

Same shape: filter out the exactly-matching skills, install the remaining
list, then recompute embeddings (again: skills assigned at line 1985 before
`encode` at line 1990). -/

/-- The filtering predicate of lines 1969-1976: a skill survives unless
`name`, `tenant_id` and `agent_id` all match. -/
def matchesRemoval (skill_name : String) (tenant_id agent_id : Option String)
    (s : Skill) : Bool :=
  s.name = skill_name && s.tenant_id = tenant_id && s.agent_id = agent_id

/-- Function `_rebuild_index_without_skill` as a state transformer. -/
def rebuildIndexWithoutSkill {V : Type}
    (encode : List String → Except String (List V)) (st : EngineState V)
    (skill_name : String) (tenant_id agent_id : Option String) :
    EngineState V × Except String Nat :=
  let remaining :=
    st.skills.filter (fun s => !(matchesRemoval skill_name tenant_id agent_id s))
  if remaining.isEmpty then
    ({ skills := [], embeddings := none }, Except.ok 0)
  else
    let st1 : EngineState V := { st with skills := remaining }
    match encode (remaining.map (fun s => s.description)) with
    | Except.error e => (st1, Except.error e)
    | Except.ok m => ({ st1 with embeddings := some m }, Except.ok remaining.length)

/-! ## The coordinator wrappers (http_server.py lines 279-344 and 1938-2010)

Both acquire `reload_lock`, reset the loading state, run the rebuild on a
worker thread, and update the loading state on success or failure, re-raising
the exception in the failure case. -/

/-- Coroutine `_replace_skills_with_reindex`: the loading-state protocol around
`_rebuild_index` (lines 288-344). -/
def replaceSkillsWithReindex {V : Type}
    (encode : List String → Except String (List V)) (ls : LoadingState)
    (st : EngineState V) (new_skills : List Skill) :
    LoadingState × EngineState V × Except String Nat :=
  let ls1 : LoadingState :=
    { ls with is_complete := false, loaded_skills := 0, total_skills := 0 }
  match rebuildIndex encode st new_skills with
  | (st', Except.error e) =>
      ({ add_error ls1 e with is_complete := true }, st', Except.error e)
  | (st', Except.ok n) =>
      ({ ls1 with total_skills := n, loaded_skills := n, is_complete := true },
        st', Except.ok n)

/-- Coroutine `_remove_skill_from_index`: the loading-state protocol around
`_rebuild_index_without_skill` (lines 1957-2010). -/
def removeSkillFromIndex {V : Type}
    (encode : List String → Except String (List V)) (ls : LoadingState)
    (st : EngineState V) (skill_name : String)
    (tenant_id agent_id : Option String) :
    LoadingState × EngineState V × Except String Nat :=
  let ls1 : LoadingState :=
    { ls with is_complete := false, loaded_skills := 0, total_skills := 0 }
  match rebuildIndexWithoutSkill encode st skill_name tenant_id agent_id with
  | (st', Except.error e) =>
      ({ add_error ls1 e with is_complete := true }, st', Except.error e)
  | (st', Except.ok n) =>
      ({ ls1 with loaded_skills := n, total_skills := n, is_complete := true },
        st', Except.ok n)

/-! ## The search engine collaborators

`SkillSearchEngine.query` and `SkillSearchEngine.index_skills` live in
`search_engine.py`, which is not part of the sources here; only their callers
are. They are modelled from the spec (§4.1). -/

/-- Modelled from the spec: `SkillSearchEngine.query` (its module
`search_engine.py` is missing from the sources). Per §4.1 it computes a score
for every currently-indexed skill against the query text with the external
scoring function, sorts descending by score with ties broken by original
insertion order (a stable sort), and returns the top `k`; if `allowed_names`
is supplied, skills whose name is not in the set are excluded before
ranking. -/
def queryIndex {V : Type} (score : String → String → Int) (st : EngineState V)
    (text : String) (k : Nat) (allowed_names : Option (List String)) :
    List (Skill × Int) :=
  let eligible :=
    match allowed_names with
    | none => st.skills
    | some names => st.skills.filter (fun s => names.contains s.name)
  let scored := eligible.map (fun s => (s, score text s.description))
  (scored.mergeSort (fun a b => b.2 ≤ a.2)).take k

/-- Modelled from the spec: `SkillSearchEngine.index_skills` (its module
`search_engine.py` is missing from the sources). Per §4.1 `replace(skills)`
discards the previous snapshot, recomputes the full score-vector in one pass
and only then installs the new pair; an empty input installs the empty
snapshot; a scoring failure aborts the call leaving the prior snapshot live
and surfaces the error. -/
def indexSkills {V : Type} (encode : List String → Except String (List V))
    (st : EngineState V) (skills : List Skill) :
    EngineState V × Except String Nat :=
  if skills.isEmpty then
    ({ skills := [], embeddings := none }, Except.ok 0)
  else
    match encode (skills.map (fun s => s.description)) with
    | Except.error e => (st, Except.error e)
    | Except.ok m =>
        ({ skills := skills, embeddings := some m }, Except.ok skills.length)

/-! ## The scheduler callback `update_callback` (http_server.py lines 2218-2270)

The periodic scheduler runs `update_callback`, which asks the update checker
which sources changed, records its errors, and — when anything changed —
reloads *all* configured sources with `load_all_skills` and calls
`search_engine.index_skills(new_skills)` directly (line 2252), with no
acquisition of `reload_lock`. A raised exception is caught by the outer
handler and recorded into the loading state. -/

/-- An opaque source descriptor from `config["skill_sources"]`. -/
abbrev SourceCfg := String

/-- The result record of `UpdateChecker.check_for_updates`: the changed
sources, the number of API calls made, and non-fatal errors (fields read by
`update_callback`; the checker itself lives in `update_checker.py`, missing
from the sources). -/
structure UpdateCheckResult where
  changed_sources : List SourceCfg
  api_calls_made : Nat
  errors : List String
deriving DecidableEq, Repr

/-- Modelled from the spec: the `has_updates` flag of the update-check result
(`update_checker.py` is missing from the sources). Per §4.4 the cycle reloads
exactly when at least one source changed. -/
def has_updates (r : UpdateCheckResult) : Bool :=
  !r.changed_sources.isEmpty

/-- Coroutine `update_callback` (lines 2218-2270) as a state transformer.
`load_all_skills` is the full-reload collaborator applied to the complete
configured source list; its result is handed to `index_skills`. The outer
`try/except` turns a raised error into a recorded loading-state error. -/
def update_callback {V : Type} (encode : List String → Except String (List V))
    (load_all_skills : List SourceCfg → List Skill)
    (skill_sources : List SourceCfg) (result : UpdateCheckResult)
    (ls : LoadingState) (st : EngineState V) :
    LoadingState × EngineState V :=
  let ls1 := result.errors.foldl add_error ls
  if has_updates result then
    let new_skills := load_all_skills skill_sources
    match indexSkills encode st new_skills with
    | (st', Except.ok _) => (ls1, st')
    | (st', Except.error e) =>
        (add_error ls1 ("Error during scheduled update: " ++ e), st')
  else
    (ls1, st)

/-! ## Reload-lock usage

Which code paths install an index snapshot while holding `reload_lock`
(the Reindex Lock)? We record each path's lock-relevant actions, in program
order, as a trace of events:

* `_replace_skills_with_reindex` (lines 288-330): `async with reload_lock`,
  then `with search_engine._lock`, then the snapshot assignments.
* `_remove_skill_from_index` (lines 1957-1996): same shape.
* `update_callback` (lines 2239-2253): calls `search_engine.index_skills`
  directly, with no `reload_lock` acquisition anywhere in its body; the
  engine-internal lock inside `index_skills` is modelled from spec §5. -/

/-- Lock-relevant atomic events of the rebuild code paths. -/
inductive LockEvent where
  | acquireReloadLock
  | releaseReloadLock
  | acquireEngineLock
  | releaseEngineLock
  | installSnapshot
deriving DecidableEq, Repr

/-- Event trace of `_replace_skills_with_reindex` (lines 288-344). -/
def replaceSkillsLockTrace : List LockEvent :=
  [LockEvent.acquireReloadLock, LockEvent.acquireEngineLock,
    LockEvent.installSnapshot, LockEvent.releaseEngineLock,
    LockEvent.releaseReloadLock]

/-- Event trace of `_remove_skill_from_index` (lines 1957-2010). -/
def removeSkillLockTrace : List LockEvent :=
  [LockEvent.acquireReloadLock, LockEvent.acquireEngineLock,
    LockEvent.installSnapshot, LockEvent.releaseEngineLock,
    LockEvent.releaseReloadLock]

/-- Event trace of the reload arm of `update_callback` (lines 2239-2253):
`search_engine.index_skills(new_skills)` is invoked with no surrounding
`reload_lock`; the engine lock inside `index_skills` is modelled from
spec §5. -/
def updateCallbackLockTrace : List LockEvent :=
  [LockEvent.acquireEngineLock, LockEvent.installSnapshot,
    LockEvent.releaseEngineLock]

/-- Auxiliary scan: given whether the reload lock is currently held, check
that every `installSnapshot` event in the trace occurs while it is held. -/
def installsUnderReloadLockAux : Bool → List LockEvent → Bool
  | _, [] => true
  | _, LockEvent.acquireReloadLock :: rest => installsUnderReloadLockAux true rest
  | _, LockEvent.releaseReloadLock :: rest => installsUnderReloadLockAux false rest
  | held, LockEvent.installSnapshot :: rest =>
      held && installsUnderReloadLockAux held rest
  | held, _ :: rest => installsUnderReloadLockAux held rest

/-- A trace installs snapshots only under the reload lock. -/
def installsUnderReloadLock (t : List LockEvent) : Bool :=
  installsUnderReloadLockAux false t

/-! ## Deletion path containment (http_server.py lines 2050-2062 and 886-899)

Both `delete_skill` entry points guard `shutil.rmtree(skill_dir)` with
`str(skill_dir.resolve()).startswith(str(local_root.resolve()))`, returning a
path-traversal error when the check fails and proceeding to remove the
directory when it passes. Resolved filesystem paths are modelled as their
strings. -/

/-- Python's `str.startswith`, on the character lists of the strings: the
first list begins with the second. -/
def listStartsWith : List Char → List Char → Bool
  | _, [] => true
  | [], _ :: _ => false
  | c :: cs, d :: ds => c = d && listStartsWith cs ds

/-- Python's `str.startswith` on strings. -/
def strStartsWith (s p : String) : Bool := listStartsWith s.data p.data

/-- The containment test of lines 890 and 2054:
`str(skill_dir_resolved).startswith(str(local_root_resolved))`. -/
def pathTraversalCheckPasses (skill_dir_resolved local_root_resolved : String) :
    Bool :=
  strStartsWith skill_dir_resolved local_root_resolved

/-- Outcome of the deletion containment gate. -/
inductive DeleteSkillOutcome where
  | pathTraversalError
  | directoryRemoved
deriving DecidableEq, Repr

/-- The deletion gate of `delete_skill`: remove the directory when the
`startswith` check passes, otherwise answer `Invalid skill path: path
traversal detected` and remove nothing (lines 2050-2080). -/
def deleteSkillContainmentGate (skill_dir_resolved local_root_resolved : String) :
    DeleteSkillOutcome :=
  if pathTraversalCheckPasses skill_dir_resolved local_root_resolved then
    DeleteSkillOutcome.directoryRemoved
  else
    DeleteSkillOutcome.pathTraversalError

/-- The claimed notion of containment: the resolved path is the resolved root
itself or a descendant of it (a further path component below the root). -/
def isContainedIn (p root : String) : Bool :=
  p = root || strStartsWith p (root ++ "/")

/-! ## Upload guards (http_server.py lines 347-361 and 528-546)

Both upload endpoints check, in order: the HTTP method, backend
initialization (`search_engine`/`config_global`/`loading_state_global` not
`None`), and `loading_state_global.is_complete`; an in-progress load is
answered `409` immediately, before the upload body is read and before any
state is touched. The remainder of each handler is an opaque continuation
over an abstract world `W` (index plus local storage). -/

/-- Handler `upload_skill_archive` (lines 347-488), split into its guard
prefix and the opaque remainder `processUpload`. Returns the HTTP status code
and the resulting world. -/
def upload_skill_archive {W : Type} (method : String) (backend_ready : Bool)
    (ls : LoadingState) (processUpload : W → Nat × W) (w : W) : Nat × W :=
  if method ≠ "POST" then (405, w)
  else if !backend_ready then (503, w)
  else if !ls.is_complete then (409, w)
  else processUpload w

/-- Handler `upload_skill_from_github` (lines 528-792), split the same
way. -/
def upload_skill_from_github {W : Type} (method : String) (backend_ready : Bool)
    (ls : LoadingState) (processUpload : W → Nat × W) (w : W) : Nat × W :=
  if method ≠ "POST" then (405, w)
  else if !backend_ready then (503, w)
  else if !ls.is_complete then (409, w)
  else processUpload w

/-! ## Specification vocabulary and concrete instances -/

/-- Left-biased choice on options, used to phrase the overlay semantics of
the merge step. -/
def optOrElse : Option Skill → Option Skill → Option Skill
  | some v, _ => some v
  | none, b => b

/-- The last skill in the list whose composite key is `k`, if any: the value
a last-write-wins overlay of the list assigns to `k`. -/
def lastWithKey : List Skill → SkillKey → Option Skill
  | [], _ => none
  | s :: rest, k =>
    match lastWithKey rest k with
    | some v => some v
    | none => if skillKey s = k then some s else none

/-- The key sequence of the association-list dict. -/
def dictKeys (d : List (SkillKey × Skill)) : List SkillKey := d.map (fun p => p.1)

/-- Number of score-vector rows held by a snapshot (`None` holds none). -/
def embRowCount {V : Type} (st : EngineState V) : Nat :=
  match st.embeddings with
  | none => 0
  | some m => m.length

/-- The spec invariant on an observable snapshot:
`len(skills) == len(score_vectors)`. -/
def snapshotAligned {V : Type} (st : EngineState V) : Prop :=
  st.skills.length = embRowCount st

/-- A scoring collaborator that always succeeds, returning one (empty) row per
input, used to exercise the success paths at concrete inputs. -/
def encodeEmptyRows : List String → Except String (List (List Int)) :=
  fun l => Except.ok (l.map (fun _ => []))

/-- A concrete public skill present in the prior snapshot. -/
def skillAlpha : Skill := Skill.mk "alpha" none none "first skill"

/-- A concrete public skill being added by an upload. -/
def skillBeta : Skill := Skill.mk "beta" none none "second skill"

/-- A scoring collaborator that raises, modelling `model.encode` failing. -/
def encodeFailing : List String → Except String (List (List Int)) :=
  fun _ => Except.error "model failure"

/-- The prior snapshot: one indexed skill with its one embedding row. -/
def priorSnapshot : EngineState (List Int) :=
  { skills := [skillAlpha], embeddings := some [[1, 2]] }

/-! ## Properties of the dict model -/

/-- Inserting key `k` makes lookup of `k` yield the new value and leaves every
other lookup unchanged. -/
theorem dictFind_dictInsert (d : List (SkillKey × Skill)) (k k' : SkillKey) (v : Skill) :
    dictFind (dictInsert d k v) k' = if k' = k then some v else dictFind d k' := by
  induction d with
  | nil =>
      by_cases h : k' = k
      · simp [dictInsert, dictFind, h]
      · simp [dictInsert, dictFind, h, Ne.symm h]
  | cons p rest ih =>
      by_cases hp : p.1 = k
      · by_cases h : k' = k
        · simp [dictInsert, hp, dictFind, h]
        · have hpk : p.1 ≠ k' := by rw [hp]; exact Ne.symm h
          simp [dictInsert, hp, dictFind, h, Ne.symm h, hpk]
      · by_cases h : p.1 = k'
        · have hk : ¬ k' = k := fun hh => hp (h.trans hh)
          simp [dictInsert, hp, dictFind, h, hk]
        · simp [dictInsert, hp, dictFind, h, ih]

/-- Lookup after folding a skill list into a dict: the last matching skill of
the list wins, else the prior dict answers. -/
theorem dictFind_dictOfSkills (l : List Skill) (init : List (SkillKey × Skill)) (k : SkillKey) :
    dictFind (dictOfSkills init l) k = optOrElse (lastWithKey l k) (dictFind init k) := by
  induction l generalizing init with
  | nil => simp [dictOfSkills, lastWithKey, optOrElse]
  | cons s t ih =>
      show dictFind (dictOfSkills (dictInsert init (skillKey s) s) t) k = _
      rw [ih, dictFind_dictInsert]
      cases h : lastWithKey t k with
      | some v => simp [lastWithKey, h, optOrElse]
      | none =>
          by_cases hk : skillKey s = k
          · simp [lastWithKey, h, optOrElse, hk]
          · simp [lastWithKey, h, optOrElse, hk, Ne.symm hk]

/-- Inserting `k` adds exactly `k` to the key set. -/
theorem mem_dictKeys_dictInsert (d : List (SkillKey × Skill)) (k x : SkillKey) (v : Skill) :
    x ∈ dictKeys (dictInsert d k v) ↔ x ∈ dictKeys d ∨ x = k := by
  induction d with
  | nil =>
      show x ∈ [k] ↔ x ∈ ([] : List SkillKey) ∨ x = k
      simp
  | cons p rest ih =>
      by_cases hp : p.1 = k
      · have h1 : dictInsert (p :: rest) k v = (k, v) :: rest := by
          simp [dictInsert, hp]
        rw [h1]
        show x ∈ k :: dictKeys rest ↔ x ∈ p.1 :: dictKeys rest ∨ x = k
        rw [hp]
        simp only [List.mem_cons]
        tauto
      · have h1 : dictInsert (p :: rest) k v = p :: dictInsert rest k v := by
          simp [dictInsert, hp]
        rw [h1]
        show x ∈ p.1 :: dictKeys (dictInsert rest k v) ↔ x ∈ p.1 :: dictKeys rest ∨ x = k
        simp only [List.mem_cons, ih]
        tauto

/-- Dict insertion preserves key uniqueness. -/
theorem nodup_dictKeys_dictInsert (d : List (SkillKey × Skill)) (k : SkillKey) (v : Skill)
    (h : (dictKeys d).Nodup) : (dictKeys (dictInsert d k v)).Nodup := by
  induction d with
  | nil =>
      show ([k] : List SkillKey).Nodup
      simp
  | cons p rest ih =>
      have hcons : (p.1 :: dictKeys rest).Nodup := h
      rw [List.nodup_cons] at hcons
      by_cases hp : p.1 = k
      · have h1 : dictInsert (p :: rest) k v = (k, v) :: rest := by
          simp [dictInsert, hp]
        rw [h1]
        show (k :: dictKeys rest).Nodup
        rw [List.nodup_cons]
        exact ⟨hp ▸ hcons.1, hcons.2⟩
      · have h1 : dictInsert (p :: rest) k v = p :: dictInsert rest k v := by
          simp [dictInsert, hp]
        rw [h1]
        show (p.1 :: dictKeys (dictInsert rest k v)).Nodup
        rw [List.nodup_cons]
        refine ⟨?_, ih hcons.2⟩
        intro hmem
        rcases (mem_dictKeys_dictInsert rest k p.1 v).mp hmem with hin | heq
        · exact hcons.1 hin
        · exact hp heq

/-- Every entry of an insertion result comes from the old dict or is the new
pair. -/
theorem mem_dictInsert (d : List (SkillKey × Skill)) (k : SkillKey) (v : Skill)
    (p : SkillKey × Skill) (h : p ∈ dictInsert d k v) : p ∈ d ∨ p = (k, v) := by
  induction d with
  | nil =>
      simp [dictInsert] at h
      exact Or.inr h
  | cons q rest ih =>
      by_cases hq : q.1 = k
      · rw [show dictInsert (q :: rest) k v = (k, v) :: rest by simp [dictInsert, hq]] at h
        rcases List.mem_cons.mp h with h1 | h1
        · exact Or.inr h1
        · exact Or.inl (List.mem_cons_of_mem _ h1)
      · rw [show dictInsert (q :: rest) k v = q :: dictInsert rest k v by
            simp [dictInsert, hq]] at h
        rcases List.mem_cons.mp h with h1 | h1
        · exact Or.inl (h1 ▸ List.mem_cons_self _ _)
        · rcases ih h1 with h2 | h2
          · exact Or.inl (List.mem_cons_of_mem _ h2)
          · exact Or.inr h2

/-- Folding skills into a dict with unique keys keeps the keys unique. -/
theorem nodup_dictKeys_dictOfSkills (l : List Skill) (init : List (SkillKey × Skill))
    (h : (dictKeys init).Nodup) : (dictKeys (dictOfSkills init l)).Nodup := by
  induction l generalizing init with
  | nil => exact h
  | cons s t ih =>
      show (dictKeys (dictOfSkills (dictInsert init (skillKey s) s) t)).Nodup
      exact ih _ (nodup_dictKeys_dictInsert _ _ _ h)

/-- Every entry of a dict built by `dictOfSkills` stores a skill under its own
composite key. -/
theorem keyConsistent_dictOfSkills (l : List Skill) (init : List (SkillKey × Skill))
    (h : ∀ p ∈ init, p.1 = skillKey p.2) :
    ∀ p ∈ dictOfSkills init l, p.1 = skillKey p.2 := by
  induction l generalizing init with
  | nil => exact h
  | cons s t ih =>
      show ∀ p ∈ dictOfSkills (dictInsert init (skillKey s) s) t, p.1 = skillKey p.2
      refine ih _ ?_
      intro p hp
      rcases mem_dictInsert _ _ _ _ hp with h1 | h1
      · exact h p h1
      · rw [h1]

/-- In a dict with unique, consistent keys, the values carrying key `k` are
exactly the result of looking `k` up. -/
theorem filter_values_eq_toList_dictFind (d : List (SkillKey × Skill)) (k : SkillKey)
    (hnd : (dictKeys d).Nodup) (hcons : ∀ p ∈ d, p.1 = skillKey p.2) :
    (d.map (fun p => p.2)).filter (fun s => skillKey s = k) = (dictFind d k).toList := by
  induction d with
  | nil => simp [dictFind]
  | cons p rest ih =>
      have hp : p.1 = skillKey p.2 := hcons p (List.mem_cons_self _ _)
      have hndc : (p.1 :: dictKeys rest).Nodup := hnd
      rw [List.nodup_cons] at hndc
      by_cases hk : p.1 = k
      · have hrest : (rest.map (fun q => q.2)).filter (fun s => skillKey s = k) = [] := by
          rw [List.filter_eq_nil_iff]
          intro s hs hsk
          rcases List.mem_map.mp hs with ⟨q, hq, hq2⟩
          have hqcons : q.1 = skillKey q.2 := hcons q (List.mem_cons_of_mem _ hq)
          have hsk2 : skillKey s = k := of_decide_eq_true hsk
          apply hndc.1
          rw [hk]
          have hqk : q.1 = k := by rw [hqcons, hq2, hsk2]
          rw [← hqk]
          exact List.mem_map.mpr ⟨q, hq, rfl⟩
        have hpk : skillKey p.2 = k := hp ▸ hk
        show ((p.2 :: rest.map (fun q => q.2)).filter (fun s => skillKey s = k))
            = (dictFind (p :: rest) k).toList
        rw [List.filter_cons]
        simp [hpk, hrest, dictFind, hk]
      · have hpk : ¬ skillKey p.2 = k := hp ▸ hk
        show ((p.2 :: rest.map (fun q => q.2)).filter (fun s => skillKey s = k))
            = (dictFind (p :: rest) k).toList
        rw [List.filter_cons]
        simp only [hpk, decide_eq_true_eq, if_false, decide_False]
        rw [show dictFind (p :: rest) k = dictFind rest k by simp [dictFind, hk]]
        exact ih hndc.2 (fun q hq => hcons q (List.mem_cons_of_mem _ hq))

/-- Choosing against `none` is the identity. -/
theorem optOrElse_none (o : Option Skill) : optOrElse o none = o := by
  cases o <;> rfl

/-- Overlay semantics of the merge step: among the combined skills, the ones
with composite key `k` are exactly the last incoming skill with that key,
else the last existing one, else nothing. -/
theorem combinedSkills_filter (existing new_skills : List Skill) (k : SkillKey) :
    (combinedSkills existing new_skills).filter (fun s => skillKey s = k)
      = (optOrElse (lastWithKey new_skills k) (lastWithKey existing k)).toList := by
  unfold combinedSkills
  rw [filter_values_eq_toList_dictFind]
  · rw [dictFind_dictOfSkills, dictFind_dictOfSkills]
    rw [show dictFind [] k = none from rfl, optOrElse_none]
  · exact nodup_dictKeys_dictOfSkills _ _
      (nodup_dictKeys_dictOfSkills _ _ (by simp [dictKeys]))
  · exact keyConsistent_dictOfSkills _ _
      (keyConsistent_dictOfSkills _ _ (by simp))

/-- Whatever the scoring collaborator does, `_rebuild_index` leaves the
combined list in `skills`. -/
theorem rebuildIndex_skills {V : Type} (encode : List String → Except String (List V))
    (st : EngineState V) (new_skills : List Skill) :
    (rebuildIndex encode st new_skills).1.skills = combinedSkills st.skills new_skills := by
  unfold rebuildIndex
  by_cases h : (combinedSkills st.skills new_skills).isEmpty
  · simp only [h, if_true]
    exact (List.isEmpty_iff.mp h).symm
  · simp only [h, if_false]
    cases encode ((combinedSkills st.skills new_skills).map (fun s => s.description)) <;> rfl

/-- Whatever the scoring collaborator does, `_rebuild_index_without_skill`
leaves the filtered list in `skills`. -/
theorem rebuildIndexWithoutSkill_skills {V : Type}
    (encode : List String → Except String (List V)) (st : EngineState V)
    (skill_name : String) (tenant_id agent_id : Option String) :
    (rebuildIndexWithoutSkill encode st skill_name tenant_id agent_id).1.skills
      = st.skills.filter (fun s => !(matchesRemoval skill_name tenant_id agent_id s)) := by
  unfold rebuildIndexWithoutSkill
  by_cases h : (st.skills.filter
      (fun s => !(matchesRemoval skill_name tenant_id agent_id s))).isEmpty
  · simp only [h, if_true]
    exact (List.isEmpty_iff.mp h).symm
  · simp only [h, if_false]
    cases encode ((st.skills.filter
        (fun s => !(matchesRemoval skill_name tenant_id agent_id s))).map
          (fun s => s.description)) <;> rfl

/-- In a two-element list sharing one composite key, the second element is the
last with that key. -/
theorem lastWithKey_pair (n : String) (t a : Option String) (d d' : String) :
    lastWithKey [Skill.mk n t a d, Skill.mk n t a d'] (n, t, a) = some (Skill.mk n t a d') := by
  simp [lastWithKey, skillKey]

/-- Auxiliary: appending errors through `add_error` never touches the
`is_complete` flag. -/
theorem foldl_add_error_is_complete (es : List String) (ls : LoadingState) :
    (es.foldl add_error ls).is_complete = ls.is_complete := by
  induction es generalizing ls with
  | nil => rfl
  | cons e t ih =>
      show (t.foldl add_error (add_error ls e)).is_complete = _
      rw [ih]
      rfl

/-! ## The claims -/

/-- Claim C1. The claim states that a scoring failure during an add-or-update
rebuild aborts the operation leaving the prior snapshot live — skills and
embeddings exactly as before — with the error surfaced. The code instead
assigns the merged skills list before calling the scoring function: at this
concrete failing input the error is surfaced and the embeddings are the old
ones, but the skills list is already the merged one, so the prior snapshot is
not preserved. -/
theorem claim_C1 :
    rebuildIndex encodeFailing priorSnapshot [skillBeta]
      = ({ skills := [skillAlpha, skillBeta], embeddings := some [[1, 2]] },
          Except.error "model failure")
    ∧ (rebuildIndex encodeFailing priorSnapshot [skillBeta]).1.skills
        ≠ priorSnapshot.skills
    ∧ (rebuildIndex encodeFailing priorSnapshot [skillBeta]).1.embeddings
        = priorSnapshot.embeddings := by
  refine ⟨rfl, ?_, rfl⟩
  intro h
  simp [rebuildIndex, priorSnapshot, combinedSkills, dictOfSkills, dictInsert,
    skillKey, skillAlpha, skillBeta, encodeFailing] at h

/-- Claim C2. The claim states that the skills list and the score-vector
matrix are equal-length aligned whenever a query may observe the state and
that no operation updates the two independently. At this concrete input the
snapshot is aligned before the rebuild and misaligned after the rebuild whose
scoring step failed: two skills, one embedding row — observable by any later
query since the engine lock is released when the exception propagates. -/
theorem claim_C2 :
    snapshotAligned priorSnapshot
    ∧ ¬ snapshotAligned (rebuildIndex encodeFailing priorSnapshot [skillBeta]).1 := by
  unfold snapshotAligned embRowCount
  refine ⟨rfl, ?_⟩
  intro h
  simp [rebuildIndex, priorSnapshot, combinedSkills, dictOfSkills, dictInsert,
    skillKey, skillAlpha, skillBeta, encodeFailing] at h

/-- Claim C3, counterexample. The claim states that all full-snapshot
replacements — upload, delete, edit-triggered and the scheduler reload — run
holding `reload_lock`. The scheduler path refutes it: `update_callback`
installs a snapshot with no reload-lock acquisition in its trace. -/
theorem claim_C3_counterexample :
    ¬ (installsUnderReloadLock replaceSkillsLockTrace = true
      ∧ installsUnderReloadLock removeSkillLockTrace = true
      ∧ installsUnderReloadLock updateCallbackLockTrace = true) := by
  decide

/-- Claim C3, amended. Upload-, delete- and edit-triggered rebuilds
(`_replace_skills_with_reindex`, `_remove_skill_from_index`) install the new
snapshot while holding `reload_lock`, but the scheduler full reload
(`update_callback` calling `search_engine.index_skills` directly) installs
without it. -/
theorem claim_C3 :
    installsUnderReloadLock replaceSkillsLockTrace = true
    ∧ installsUnderReloadLock removeSkillLockTrace = true
    ∧ installsUnderReloadLock updateCallbackLockTrace = false := by
  decide

/-- Claim C4. An add-or-update rebuild installs exactly the current snapshot
overlaid with the incoming skills keyed by `(name, tenant_id, agent_id)`:
the installed list is the combined one; for every key it holds at most one
skill, namely the last incoming skill with that key, else the surviving
existing one; and after `add-or-update([A, A'])` with `A`, `A'` sharing a
composite key, exactly the skill `A'` carries that key. -/
theorem claim_C4 :
    (∀ (V : Type) (encode : List String → Except String (List V)) (st : EngineState V)
        (new_skills : List Skill),
      (rebuildIndex encode st new_skills).1.skills = combinedSkills st.skills new_skills)
    ∧ (∀ (existing new_skills : List Skill) (k : SkillKey),
      (combinedSkills existing new_skills).filter (fun s => skillKey s = k)
        = (optOrElse (lastWithKey new_skills k) (lastWithKey existing k)).toList)
    ∧ (∀ (existing : List Skill) (n : String) (t a : Option String) (d d' : String),
      (combinedSkills existing [Skill.mk n t a d, Skill.mk n t a d']).filter
          (fun s => skillKey s = (n, t, a))
        = [Skill.mk n t a d']) := by
  refine ⟨fun V encode st new_skills => rebuildIndex_skills encode st new_skills,
    fun existing new_skills k => combinedSkills_filter existing new_skills k,
    fun existing n t a d d' => ?_⟩
  rw [combinedSkills_filter, lastWithKey_pair]
  rfl

/-- Claim C5. A removal rebuild drops exactly the skills whose
`(name, tenant_id, agent_id)` triple matches all three provided values: the
installed list is the filtered one, and membership is unchanged except for
full-triple matches — a partial match (same name, different tenant) always
survives. -/
theorem claim_C5 :
    ∀ (V : Type) (encode : List String → Except String (List V)) (st : EngineState V)
      (skill_name : String) (tenant_id agent_id : Option String),
      (rebuildIndexWithoutSkill encode st skill_name tenant_id agent_id).1.skills
        = st.skills.filter (fun s => !(matchesRemoval skill_name tenant_id agent_id s))
      ∧ ∀ s : Skill,
          s ∈ (rebuildIndexWithoutSkill encode st skill_name tenant_id agent_id).1.skills
          ↔ s ∈ st.skills
            ∧ ¬(s.name = skill_name ∧ s.tenant_id = tenant_id ∧ s.agent_id = agent_id) := by
  intro V encode st skill_name tenant_id agent_id
  refine ⟨rebuildIndexWithoutSkill_skills encode st skill_name tenant_id agent_id, ?_⟩
  intro s
  rw [rebuildIndexWithoutSkill_skills, List.mem_filter]
  simp only [matchesRemoval, Bool.not_eq_true', Bool.and_eq_false_iff, decide_eq_false_iff_not,
    Bool.not_eq_true, and_congr_right_iff]
  intro _
  tauto

/-- Claim C6. Both mutating wrappers terminate with `is_complete = true`: on
failure the error is appended to the error list, the flag is forced true and
the error is returned (re-raised) to the caller; on success
`loaded_skills = total_skills =` the new snapshot size. The remaining
loading-state writer, the scheduler callback, never changes `is_complete`, so
the flag stays true until the next mutation resets it. -/
theorem claim_C6 :
    (∀ (V : Type) (encode : List String → Except String (List V)) (ls : LoadingState)
        (st : EngineState V) (new_skills : List Skill),
      (replaceSkillsWithReindex encode ls st new_skills).1.is_complete = true
      ∧ (replaceSkillsWithReindex encode ls st new_skills).1.errors
          = (match (replaceSkillsWithReindex encode ls st new_skills).2.2 with
            | Except.error e => ls.errors ++ [e]
            | Except.ok _ => ls.errors)
      ∧ (match (replaceSkillsWithReindex encode ls st new_skills).2.2 with
          | Except.ok n =>
            (replaceSkillsWithReindex encode ls st new_skills).1.loaded_skills = n
            ∧ (replaceSkillsWithReindex encode ls st new_skills).1.total_skills = n
          | Except.error _ => True))
    ∧ (∀ (V : Type) (encode : List String → Except String (List V)) (ls : LoadingState)
        (st : EngineState V) (skill_name : String) (tenant_id agent_id : Option String),
      (removeSkillFromIndex encode ls st skill_name tenant_id agent_id).1.is_complete = true
      ∧ (removeSkillFromIndex encode ls st skill_name tenant_id agent_id).1.errors
          = (match (removeSkillFromIndex encode ls st skill_name tenant_id agent_id).2.2 with
            | Except.error e => ls.errors ++ [e]
            | Except.ok _ => ls.errors)
      ∧ (match (removeSkillFromIndex encode ls st skill_name tenant_id agent_id).2.2 with
          | Except.ok n =>
            (removeSkillFromIndex encode ls st skill_name tenant_id agent_id).1.loaded_skills = n
            ∧ (removeSkillFromIndex encode ls st skill_name tenant_id agent_id).1.total_skills = n
          | Except.error _ => True))
    ∧ (∀ (V : Type) (encode : List String → Except String (List V))
        (load_all_skills : List SourceCfg → List Skill) (skill_sources : List SourceCfg)
        (result : UpdateCheckResult) (ls : LoadingState) (st : EngineState V),
      (update_callback encode load_all_skills skill_sources result ls st).1.is_complete
        = ls.is_complete) := by
  refine ⟨?_, ?_, ?_⟩
  · intro V encode ls st new_skills
    rcases h : rebuildIndex encode st new_skills with ⟨st1, r⟩
    cases r <;> simp [replaceSkillsWithReindex, h, add_error]
  · intro V encode ls st skill_name tenant_id agent_id
    rcases h : rebuildIndexWithoutSkill encode st skill_name tenant_id agent_id with ⟨st1, r⟩
    cases r <;> simp [removeSkillFromIndex, h, add_error]
  · intro V encode load_all_skills skill_sources result ls st
    unfold update_callback
    by_cases hu : has_updates result
    · simp only [hu, if_true]
      rcases hI : indexSkills encode st (load_all_skills skill_sources) with ⟨st1, r⟩
      cases r <;> simp [hI, add_error, foldl_add_error_is_complete]
    · simp [hu, foldl_add_error_is_complete]

/-- Claim C7. A rebuild whose resulting skill set is empty — whether an
add-or-update whose combined list is empty or a removal leaving nothing —
installs the empty snapshot (no skills, no embeddings) and returns count 0
rather than an error; a query against the empty snapshot returns the empty
list. -/
theorem claim_C7 :
    (∀ (V : Type) (encode : List String → Except String (List V)) (st : EngineState V)
        (new_skills : List Skill),
      combinedSkills st.skills new_skills = [] →
        rebuildIndex encode st new_skills
          = ({ skills := [], embeddings := none }, Except.ok 0))
    ∧ (∀ (V : Type) (encode : List String → Except String (List V)) (st : EngineState V)
        (skill_name : String) (tenant_id agent_id : Option String),
      st.skills.filter (fun s => !(matchesRemoval skill_name tenant_id agent_id s)) = [] →
        rebuildIndexWithoutSkill encode st skill_name tenant_id agent_id
          = ({ skills := [], embeddings := none }, Except.ok 0))
    ∧ (∀ (V : Type) (score : String → String → Int) (text : String) (k : Nat)
        (allowed_names : Option (List String)),
      queryIndex score ({ skills := [], embeddings := none } : EngineState V)
        text k allowed_names = []) := by
  refine ⟨?_, ?_, ?_⟩
  · intro V encode st new_skills h
    unfold rebuildIndex
    simp [h]
  · intro V encode st skill_name tenant_id agent_id h
    unfold rebuildIndexWithoutSkill
    simp [h]
  · intro V score text k allowed_names
    cases allowed_names <;> simp [queryIndex]

/-- Witness for claim C7 at concrete inputs: an empty add-or-update, a
removal of the only skill, and a query of the empty snapshot. -/
theorem claim_C7_witness :
    rebuildIndex encodeEmptyRows ({ skills := [], embeddings := none }) []
      = ({ skills := [], embeddings := none }, Except.ok 0)
    ∧ rebuildIndexWithoutSkill encodeEmptyRows
        ({ skills := [Skill.mk "x" (some "t1") none "d"], embeddings := some [[1]] })
        "x" (some "t1") none
      = ({ skills := [], embeddings := none }, Except.ok 0)
    ∧ queryIndex (fun _ _ => (0 : Int))
        ({ skills := [], embeddings := none } : EngineState (List Int)) "task" 3 none = [] :=
  ⟨claim_C7.1 (List Int) encodeEmptyRows _ [] rfl,
    claim_C7.2.1 (List Int) encodeEmptyRows _ "x" (some "t1") none rfl,
    claim_C7.2.2 (List Int) (fun _ _ => (0 : Int)) "task" 3 none⟩

/-- Claim C8. A scheduler cycle leaves the index untouched when the change
check reports no changed sources; when it reports any, the index is rebuilt
from the full reload of all configured sources, regardless of which sources
changed. -/
theorem claim_C8 :
    ∀ (V : Type) (encode : List String → Except String (List V))
      (load_all_skills : List SourceCfg → List Skill) (skill_sources : List SourceCfg)
      (result : UpdateCheckResult) (ls : LoadingState) (st : EngineState V),
      (update_callback encode load_all_skills skill_sources result ls st).2
        = if result.changed_sources.isEmpty then st
          else (indexSkills encode st (load_all_skills skill_sources)).1 := by
  intro V encode load_all_skills skill_sources result ls st
  unfold update_callback has_updates
  by_cases hc : result.changed_sources.isEmpty
  · simp [hc]
  · simp only [hc, Bool.not_false, if_true, if_false]
    rcases hI : indexSkills encode st (load_all_skills skill_sources) with ⟨st1, r⟩
    cases r <;> simp [hI]

/-- Claim C9. The claim states that `delete_skill` removes a directory only
when its resolved path is contained in the resolved local skills root and
answers a path-traversal error otherwise. The containment test is a string
`startswith`: the sibling directory `/data/skills-evil/payload`, which is not
contained in the root `/data/skills`, passes it and is removed. -/
theorem claim_C9 :
    deleteSkillContainmentGate "/data/skills-evil/payload" "/data/skills"
      = DeleteSkillOutcome.directoryRemoved
    ∧ isContainedIn "/data/skills-evil/payload" "/data/skills" = false := by
  decide

/-- Claim C10. While loading is incomplete (`is_complete = false`), both
upload endpoints answer HTTP 409 immediately — before any upload processing,
whatever that processing would do — and leave the world (index and local
storage) unchanged; the request is not queued. -/
theorem claim_C10 :
    ∀ (W : Type) (processUpload processGithub : W → Nat × W) (w : W)
      (total loaded : Nat) (errs : List String),
      upload_skill_archive "POST" true (LoadingState.mk total loaded false errs)
          processUpload w = (409, w)
      ∧ upload_skill_from_github "POST" true (LoadingState.mk total loaded false errs)
          processGithub w = (409, w) := by
  intro W processUpload processGithub w total loaded errs
  exact ⟨rfl, rfl⟩

end SkillsBackend

